import Mathlib

/-! Verification development for the SDIS core services: deterministic chunking
(`app/services/chunking.py`), PII detection/redaction (`app/services/redaction.py`),
the signed audit ledger (`app/services/auditlog.py`, `app/services/crypto_sign.py`)
and the per-tenant vector store (`app/services/vectorstore.py`).

The Python sources are shallowly embedded: text is `List Char` (one entry per code
point, as Python strings), byte strings are `List Nat`, Python `dict` payloads are
an association-list JSON type, and fallible code returns `Except`.  SHA-256 is
implemented in full (FIPS 180-4, constants derived from the fractional parts of
square/cube roots of the first primes) so that the content-addressed ids computed
by the services can be evaluated on concrete inputs. -/

set_option maxRecDepth 1000000

namespace SDIS

/-! ### 32-bit arithmetic and SHA-256 (hashlib.sha256(...).hexdigest()) -/

def M32 : Nat := 4294967296

def bsearchCube (target : Nat) : Nat → Nat → Nat → Nat
  | 0, lo, _ => lo
  | n+1, lo, hi =>
    if hi - lo ≤ 1 then lo
    else
      let m := (lo + hi) / 2
      if m * m * m ≤ target then bsearchCube target n m hi else bsearchCube target n lo m

def bsearchSq (target : Nat) : Nat → Nat → Nat → Nat
  | 0, lo, _ => lo
  | n+1, lo, hi =>
    if hi - lo ≤ 1 then lo
    else
      let m := (lo + hi) / 2
      if m * m ≤ target then bsearchSq target n m hi else bsearchSq target n lo m

def cbrtN (n : Nat) : Nat := bsearchCube n 64 0 1099511627776

def isqrtN (n : Nat) : Nat := bsearchSq n 64 0 1099511627776

def sdisPrimes : List Nat :=
  [2, 3, 5, 7, 11, 13, 17, 19, 23, 29, 31, 37, 41, 43, 47, 53,
   59, 61, 67, 71, 73, 79, 83, 89, 97, 101, 103, 107, 109, 113, 127, 131,
   137, 139, 149, 151, 157, 163, 167, 173, 179, 181, 191, 193, 197, 199, 211, 223,
   227, 229, 233, 239, 241, 251, 257, 263, 269, 271, 277, 281, 283, 293, 307, 311]

def K64 : List Nat := sdisPrimes.map (fun p => cbrtN (p * 79228162514264337593543950336) % M32)

structure H8 where
  a : Nat
  b : Nat
  c : Nat
  d : Nat
  e : Nat
  f : Nat
  g : Nat
  h : Nat

def initH : H8 :=
  ⟨isqrtN (2 * 18446744073709551616) % M32, isqrtN (3 * 18446744073709551616) % M32,
   isqrtN (5 * 18446744073709551616) % M32, isqrtN (7 * 18446744073709551616) % M32,
   isqrtN (11 * 18446744073709551616) % M32, isqrtN (13 * 18446744073709551616) % M32,
   isqrtN (17 * 18446744073709551616) % M32, isqrtN (19 * 18446744073709551616) % M32⟩

def rotr (x n : Nat) : Nat := ((x >>> n) ||| (x <<< (32 - n))) % M32

def bigSigma0 (x : Nat) : Nat := rotr x 2 ^^^ rotr x 13 ^^^ rotr x 22

def bigSigma1 (x : Nat) : Nat := rotr x 6 ^^^ rotr x 11 ^^^ rotr x 25

def smallSigma0 (x : Nat) : Nat := rotr x 7 ^^^ rotr x 18 ^^^ (x >>> 3)

def smallSigma1 (x : Nat) : Nat := rotr x 17 ^^^ rotr x 19 ^^^ (x >>> 10)

def chOf (e f g : Nat) : Nat := (e &&& f) ^^^ ((4294967295 ^^^ e) &&& g)

def majOf (a b c : Nat) : Nat := (a &&& b) ^^^ (a &&& c) ^^^ (b &&& c)

def roundStep (st : H8) (kw : Nat × Nat) : H8 :=
  let t1 := (st.h + bigSigma1 st.e + chOf st.e st.f st.g + kw.1 + kw.2) % M32
  let t2 := (bigSigma0 st.a + majOf st.a st.b st.c) % M32
  ⟨(t1 + t2) % M32, st.a, st.b, st.c, (st.d + t1) % M32, st.e, st.f, st.g⟩

def schedExt (w : List Nat) : Nat → List Nat
  | 0 => w
  | n+1 =>
    let t := w.length
    schedExt (w ++ [(smallSigma1 (w.getD (t - 2) 0) + w.getD (t - 7) 0 +
                     smallSigma0 (w.getD (t - 15) 0) + w.getD (t - 16) 0) % M32]) n

def bytesToWords : List Nat → List Nat
  | b0 :: b1 :: b2 :: b3 :: rest =>
    (b0 * 16777216 + b1 * 65536 + b2 * 256 + b3) :: bytesToWords rest
  | _ => []

def compressBlock (st : H8) (blk : List Nat) : H8 :=
  let ws := schedExt (bytesToWords blk) 48
  let fin := (K64.zip ws).foldl roundStep st
  ⟨(st.a + fin.a) % M32, (st.b + fin.b) % M32, (st.c + fin.c) % M32, (st.d + fin.d) % M32,
   (st.e + fin.e) % M32, (st.f + fin.f) % M32, (st.g + fin.g) % M32, (st.h + fin.h) % M32⟩

def beBytes : Nat → Nat → List Nat
  | 0, _ => []
  | n+1, v => beBytes n (v / 256) ++ [v % 256]

def padMsg (msg : List Nat) : List Nat :=
  msg ++ 128 :: List.replicate ((120 - ((msg.length + 1) % 64)) % 64) 0 ++
    beBytes 8 (msg.length * 8)

def chunks64Aux : Nat → List Nat → List (List Nat)
  | 0, _ => []
  | _, [] => []
  | f+1, l => l.take 64 :: chunks64Aux f (l.drop 64)

def chunks64 (l : List Nat) : List (List Nat) := chunks64Aux l.length l

def sha256H (msg : List Nat) : H8 := (chunks64 (padMsg msg)).foldl compressBlock initH

def hexChars : List Char := "0123456789abcdef".data

def hexDigit (n : Nat) : Char := hexChars.getD n '0'

def hexFixed : Nat → Nat → List Char
  | 0, _ => []
  | n+1, v => hexFixed n (v / 16) ++ [hexDigit (v % 16)]

def sha256hexBytes (msg : List Nat) : List Char :=
  let h := sha256H msg
  hexFixed 8 h.a ++ hexFixed 8 h.b ++ hexFixed 8 h.c ++ hexFixed 8 h.d ++
  hexFixed 8 h.e ++ hexFixed 8 h.f ++ hexFixed 8 h.g ++ hexFixed 8 h.h

def utf8Char (c : Char) : List Nat :=
  let n := c.toNat
  if n < 128 then [n]
  else if n < 2048 then [192 + n / 64, 128 + n % 64]
  else if n < 65536 then [224 + n / 4096, 128 + (n / 64) % 64, 128 + n % 64]
  else [240 + n / 262144, 128 + (n / 4096) % 64, 128 + (n / 64) % 64, 128 + n % 64]

def utf8Encode (cs : List Char) : List Nat := (cs.map utf8Char).flatten

def sha256hexS (s : String) : String := String.mk (sha256hexBytes (utf8Encode s.data))

def isHexDigit (c : Char) : Bool := hexChars.contains c

/-! ### Text chunking (`app/services/chunking.py`, `TextChunker.chunk_text`)

Python strings become `List Char`; `text[a:b]` is `sliceChars`, `str.strip()` is
`stripChars` (ASCII whitespace, which is what the chunker ever meets after UTF-8
text extraction), `str.rfind(sub)` is `rfindSub` (`none` models the `-1` result). -/

def isPySpace (c : Char) : Bool :=
  c = ' ' || c = '\t' || c = '\n' || c = '\r' || c = Char.ofNat 11 || c = Char.ofNat 12

def stripChars (l : List Char) : List Char :=
  ((l.dropWhile isPySpace).reverse.dropWhile isPySpace).reverse

def sliceChars (l : List Char) (a b : Nat) : List Char := (l.drop a).take (b - a)

def occursAt (lp sub : List Char) (p : Nat) : Bool :=
  decide ((lp.drop p).take sub.length = sub ∧ p + sub.length ≤ lp.length)

/-- Right-most index of `bound`-many candidates satisfying `pred` (scan keeps the
last hit, i.e. the greatest qualifying index). -/
def pickLast (pred : Nat → Bool) (bound : Nat) : Option Nat :=
  (List.range bound).foldl (fun b p => if pred p then some p else b) none

def rfindSub (lp sub : List Char) : Option Nat := pickLast (occursAt lp sub) (lp.length + 1)

def sentenceEndings : List (List Char) := [['.'], ['!'], ['?'], ['\n', '\n']]

def optLt : Option Nat → Nat → Bool
  | none, _ => true
  | some b, p => decide (b < p)

/-- One iteration of the `for ending in sentence_endings` loop: keep `pos` when
`pos > best_break and pos > len(last_part) // 2` (a `-1` from `rfind` is `none`). -/
def bestStep (lp : List Char) (best : Option Nat) (e : List Char) : Option Nat :=
  match rfindSub lp e with
  | none => best
  | some p => if optLt best p && decide (lp.length / 2 < p) then some p else best

def bestBreakOf (lp : List Char) : Option Nat := sentenceEndings.foldl (bestStep lp) none

/-- The sentence-boundary adjustment of the window end inside `chunk_text`
(lines 38-51): search `text[max(start, end-100):end]` and, when a break is found,
cut at `max(start, end-100) + best_break + 1`. -/
def adjustEnd (text : List Char) (start end0 : Nat) : Nat :=
  let base := max start (end0 - 100)
  let lp := sliceChars text base end0
  match bestBreakOf lp with
  | none => end0
  | some b => base + b + 1

def qualifiesAt (lp : List Char) (p : Nat) : Bool :=
  sentenceEndings.any (fun e => occursAt lp e p) && decide (lp.length / 2 < p)

def bestBreakAmended (lp : List Char) : Option Nat := pickLast (qualifiesAt lp) (lp.length + 1)

/-- Amended reading of the spec sentence: cut one character after the right-most
start position of a sentence-ending delimiter in the searched region whose
position within that region strictly exceeds half the region's length. -/
def adjustEndAmended (text : List Char) (start end0 : Nat) : Nat :=
  let base := max start (end0 - 100)
  let lp := sliceChars text base end0
  match bestBreakAmended lp with
  | none => end0
  | some b => base + b + 1

def delimLenAt (lp : List Char) (p : Nat) : Option Nat :=
  if occursAt lp ['\n', '\n'] p then some 2
  else if occursAt lp ['.'] p || occursAt lp ['!'] p || occursAt lp ['?'] p then some 1
  else none

/-- The claim C8 as literally stated: the right-most delimiter in the last 100
characters of the window positioned after the window's midpoint, cutting
immediately after the whole delimiter. -/
def adjustEndClaimed (text : List Char) (start end0 : Nat) : Nat :=
  let base := max start (end0 - 100)
  let lp := sliceChars text base end0
  match pickLast
      (fun p => (delimLenAt lp p).isSome && decide ((start + end0) / 2 < base + p))
      (lp.length + 1) with
  | none => end0
  | some p => base + p + (delimLenAt lp p).getD 1

/-- Advance of the window start (lines 77-81): `start = max(start+1, end-overlap)`
followed by the `if start >= end: start = end` guard. -/
def nextStart (overlap start end1 : Nat) : Nat :=
  let s1 := max (start + 1) (end1 - overlap)
  if end1 ≤ s1 then end1 else s1

def orDoc : Option String → String
  | none => "doc"
  | some s => if s = "" then "doc" else s

/-- The f-string `f"{document_id or 'doc'}:{start}:{end}:{chunk_text}"`. -/
def chunkContent (docId : Option String) (start end1 : Nat) (ctext : List Char) : String :=
  orDoc docId ++ ":" ++ Nat.repr start ++ ":" ++ Nat.repr end1 ++ ":" ++ String.mk ctext

structure Chunk where
  chunk_id : String
  text : List Char
  start : Nat
  end_ : Nat
  length : Nat
  index : Nat
  document_id : Option String
deriving DecidableEq

def mkChunk (docId : Option String) (start end1 : Nat) (ctext : List Char) (idx : Nat) : Chunk :=
  ⟨sha256hexS (chunkContent docId start end1 ctext), ctext, start, end1, ctext.length, idx, docId⟩

/-- The window end of one loop iteration: `end = min(start + chunk_size,
text_length)` followed by the sentence-boundary adjustment when the window does
not reach end-of-text. -/
def windowEnd (cs : Nat) (text : List Char) (start : Nat) : Nat :=
  let end0 := min (start + cs) text.length
  if end0 < text.length then adjustEnd text start end0 else end0

/-- The `while start < text_length` loop of `chunk_text`, with an explicit fuel
counter; `none` means the fuel ran out (the termination theorem shows
`text.length + 1` fuel always suffices). -/
def chunkLoop (cs ov : Nat) (text : List Char) (docId : Option String) :
    Nat → Nat → Nat → List Chunk → Option (List Chunk)
  | 0, _, _, _ => none
  | fuel+1, start, idx, acc =>
    if start < text.length then
      let end1 := windowEnd cs text start
      let ctext := stripChars (sliceChars text start end1)
      let acc' := if ctext = [] then acc else acc ++ [mkChunk docId start end1 ctext idx]
      let idx' := if ctext = [] then idx else idx + 1
      if text.length ≤ end1 then some acc'
      else chunkLoop cs ov text docId fuel (nextStart ov start end1) idx' acc'
    else some acc

def chunk_text (cs ov : Nat) (text : List Char) (docId : Option String) : Option (List Chunk) :=
  if stripChars text = [] then some []
  else chunkLoop cs ov text docId (text.length + 1) 0 0 []

/-! ### PII detection and redaction (`app/services/redaction.py`)

`PIISpan` models the span dicts produced by `PIIDetector.detect_pii`; the regex
and spaCy tiers only supply the candidate list, so the overlap-resolution claims
are stated for arbitrary candidate lists (every detector candidate has
`start < end` since regex matches and NER entities are non-empty).
Python's stable `sorted(key=...)` is modelled by `List.insertionSort` with a
non-strict total relation on the sort key, which is stable in the same sense. -/

structure PIISpan where
  type : String
  start : Nat
  end_ : Nat
  text : List Char
  confidence : ℚ
  method : String
deriving DecidableEq

/-- `span['start'] < existing['end'] and span['end'] > existing['start']`. -/
def overlapsCheck (s e : PIISpan) : Bool :=
  decide (s.start < e.end_) && decide (s.end_ > e.start)

/-- The `for span in spans: ... result.append(span)` loop of `_remove_overlaps`. -/
def remove_overlaps_aux : List PIISpan → List PIISpan → List PIISpan
  | acc, [] => acc
  | acc, s :: rest =>
    if acc.any (fun e => overlapsCheck s e) then remove_overlaps_aux acc rest
    else remove_overlaps_aux (acc ++ [s]) rest

/-- Sort key `(x['start'], -x['confidence'])` of `_remove_overlaps`. -/
def spanKeyLe (a b : PIISpan) : Prop :=
  a.start < b.start ∨ (a.start = b.start ∧ b.confidence ≤ a.confidence)

instance : DecidableRel spanKeyLe := fun a b =>
  inferInstanceAs (Decidable (a.start < b.start ∨ (a.start = b.start ∧ b.confidence ≤ a.confidence)))

def remove_overlaps (spans : List PIISpan) : List PIISpan :=
  remove_overlaps_aux [] (List.insertionSort spanKeyLe spans)

def startLe (a b : PIISpan) : Prop := a.start ≤ b.start

instance : DecidableRel startLe := fun a b => inferInstanceAs (Decidable (a.start ≤ b.start))

/-- Lines 60-62 of `detect_pii`: `spans = self._remove_overlaps(spans); return
sorted(spans, key=lambda x: x['start'])`, applied to the candidate list. -/
def detect_pii_resolve (spans : List PIISpan) : List PIISpan :=
  List.insertionSort startLe (remove_overlaps spans)

/-- `type_labels.get(pii_type, '[PII]')` of `_mask_text`. -/
def mask_text (text : List Char) (pii_type : String) : String :=
  if pii_type = "ssn" then "[SSN]"
  else if pii_type = "phone" then "[PHONE]"
  else if pii_type = "email" then "[EMAIL]"
  else if pii_type = "credit_card" then "[CARD]"
  else if pii_type = "person" then "[NAME]"
  else if pii_type = "org" then "[ORG]"
  else if pii_type = "date_of_birth" then "[DOB]"
  else if pii_type = "zip_code" then "[ZIP]"
  else "[PII]"

/-- `type_prefixes.get(pii_type, 'PII')` of `_hash_text`. -/
def tagOf (pii_type : String) : String :=
  if pii_type = "ssn" then "SSN"
  else if pii_type = "phone" then "PH"
  else if pii_type = "email" then "EM"
  else if pii_type = "credit_card" then "CC"
  else if pii_type = "person" then "NM"
  else if pii_type = "org" then "OR"
  else if pii_type = "date_of_birth" then "DOB"
  else if pii_type = "zip_code" then "ZIP"
  else "PII"

/-- `TextRedactor._hash_text`: salted SHA-256 truncated to 8 hex characters,
wrapped as `[<prefix>:<digest>]`. -/
def hash_text (tenant_salt : String) (text : List Char) (pii_type : String) : String :=
  let salted_text := tenant_salt ++ ":" ++ String.mk text ++ ":" ++ pii_type
  let hash_digest := String.mk ((sha256hexBytes (utf8Encode salted_text.data)).take 8)
  "[" ++ tagOf pii_type ++ ":" ++ hash_digest ++ "]"

structure RedactionRec where
  original_start : Nat
  original_end : Nat
  original_text : List Char
  replacement : String
  type : String
  mode : String
  confidence : ℚ
deriving DecidableEq

/-- The mode dispatch inside the redaction loop; the `else` branch models
`raise ValueError(f"Unknown redaction mode: {mode}")`. -/
def replacement_for (tenant_salt mode : String) (s : PIISpan) : Except String String :=
  if mode = "mask" then .ok (mask_text s.text s.type)
  else if mode = "hash" then .ok (hash_text tenant_salt s.text s.type)
  else if mode = "remove" then .ok ""
  else .error ("Unknown redaction mode: " ++ mode)

/-- `redacted_text[:start] + replacement + redacted_text[end:]`. -/
def applyRedaction (t : List Char) (start end_ : Nat) (rep : String) : List Char :=
  t.take start ++ rep.data ++ t.drop end_

def redact_loop (tenant_salt mode : String) :
    List Char → List RedactionRec → List PIISpan → Except String (List Char × List RedactionRec)
  | t, recs, [] => .ok (t, recs)
  | t, recs, s :: rest =>
    match replacement_for tenant_salt mode s with
    | .error e => .error e
    | .ok rep =>
      redact_loop tenant_salt mode (applyRedaction t s.start s.end_ rep)
        (recs ++ [⟨s.start, s.end_, s.text, rep, s.type, mode, s.confidence⟩]) rest

/-- `sorted(pii_spans, key=lambda x: x['start'], reverse=True)`. -/
def startGe (a b : PIISpan) : Prop := b.start ≤ a.start

instance : DecidableRel startGe := fun a b => inferInstanceAs (Decidable (b.start ≤ a.start))

/-- `TextRedactor.redact_text`: early return on an empty span list, then the
descending-start redaction loop. -/
def redact_text (tenant_salt : String) (text : List Char) (pii_spans : List PIISpan)
    (mode : String) : Except String (List Char × List RedactionRec) :=
  if pii_spans = [] then .ok (text, [])
  else redact_loop tenant_salt mode text [] (List.insertionSort startGe pii_spans)

/-! ### JSON payloads and canonical serialization (`json.dumps`)

Python dict payloads are modelled as an association-chain JSON type (`jcons` is
one `key: value` entry followed by the rest of the object).  `dumpsCanonical`
models `json.dumps(payload, sort_keys=True)` with the default separators
`', '`/`': '` and default `ensure_ascii=True`; `dumpsLine` models
`json.dumps(event, ensure_ascii=False)` (insertion order) used for the ledger
line.  Recursions over nested objects carry an explicit fuel that is always at
least the nesting depth, so the definitions stay kernel-executable. -/

inductive Json where
  | jnull : Json
  | jstr : String → Json
  | jempty : Json
  | jcons : String → Json → Json → Json
deriving DecidableEq

def toKvs : Json → List (String × Json)
  | .jcons k v r => (k, v) :: toKvs r
  | _ => []

def ofKvs : List (String × Json) → Json
  | [] => .jempty
  | (k, v) :: rest => .jcons k v (ofKvs rest)

def jsize : Json → Nat
  | .jcons _ v r => 1 + jsize v + jsize r
  | _ => 1

/-- Code-point lexicographic `<` on strings, the order Python sorts keys by
(`String.decidableLE` in core is not kernel-executable, so the comparison is
spelled out over the character lists). -/
def strLtChars : List Char → List Char → Bool
  | [], [] => false
  | [], _ :: _ => true
  | _ :: _, [] => false
  | a :: as, b :: bs =>
    if a.toNat < b.toNat then true
    else if b.toNat < a.toNat then false
    else strLtChars as bs

def keyLe (a b : String × Json) : Prop := strLtChars b.1.data a.1.data = false

instance : DecidableRel keyLe := fun a b =>
  inferInstanceAs (Decidable (strLtChars b.1.data a.1.data = false))

/-- Recursive key sorting performed by `json.dumps(..., sort_keys=True)`. -/
def deepSortF : Nat → Json → Json
  | 0, j => j
  | f+1, .jcons k v r =>
    ofKvs ((List.insertionSort keyLe (toKvs (.jcons k v r))).map
      (fun kv => (kv.1, deepSortF f kv.2)))
  | _+1, j => j

def escChar (ascii : Bool) (c : Char) : List Char :=
  if c = '"' then ['\\', '"']
  else if c = '\\' then ['\\', '\\']
  else if c = '\n' then ['\\', 'n']
  else if c = '\t' then ['\\', 't']
  else if c = '\r' then ['\\', 'r']
  else if c.toNat < 32 then '\\' :: 'u' :: hexFixed 4 c.toNat
  else if ascii && decide (127 ≤ c.toNat) then '\\' :: 'u' :: hexFixed 4 c.toNat
  else [c]

def dumpStr (ascii : Bool) (s : String) : List Char :=
  '"' :: (s.data.map (escChar ascii)).flatten ++ ['"']

/-- `json.dumps` of an already-ordered object; the `Bool` flag distinguishes a
whole value (`false`) from the inside of an object (`true`). -/
def dumpsF (ascii : Bool) : Nat → Bool → Json → List Char
  | 0, _, _ => []
  | _+1, false, .jnull => ['n', 'u', 'l', 'l']
  | _+1, false, .jstr s => dumpStr ascii s
  | _+1, false, .jempty => [Char.ofNat 123, Char.ofNat 125]
  | f+1, false, .jcons k v r => Char.ofNat 123 :: (dumpsF ascii f true (.jcons k v r) ++ [Char.ofNat 125])
  | _+1, true, .jnull => []
  | _+1, true, .jstr _ => []
  | _+1, true, .jempty => []
  | f+1, true, .jcons k v r =>
    dumpStr ascii k ++ ':' :: ' ' :: dumpsF ascii f false v ++
    (match r with
     | .jcons _ _ _ => ',' :: ' ' :: dumpsF ascii f true r
     | _ => [])

/-- `json.dumps(payload, sort_keys=True)` — the canonical serialization used for
`audit_id`, `result_hash` and the signing payload. -/
def dumpsCanonical (j : Json) : String :=
  let js := deepSortF (jsize j) j
  String.mk (dumpsF true (2 * jsize js + 2) false js)

/-- `json.dumps(event, ensure_ascii=False)` — the ledger line. -/
def dumpsLine (j : Json) : String :=
  String.mk (dumpsF false (2 * jsize j + 2) false j)

/-- `CryptoSignService.hash_payload` on a dict payload. -/
def hash_payload (j : Json) : String := sha256hexS (dumpsCanonical j)

/-! ### Audit ledger (`app/services/auditlog.py`, `AuditLogService.write_audit_event`)

The wall clock (`datetime.utcnow().isoformat()`) enters as the `ts` parameter and
the RSA signing primitive of `CryptoSignService.sign_payload` (external
`cryptography` library) as the `sign` function; `Except.error` models a raised
exception.  The audit log file is the list of its lines. -/

structure AuditIn where
  action : String
  tenant_id : String
  user_id : Option String
  resource : Option String
  resource_type : Option String
  request_data : Option Json
  response_data : Option Json
  ip_address : Option String
  user_agent : Option String

def optJson : Option String → Json
  | none => .jnull
  | some s => .jstr s

/-- `request_data or {}` (a missing or empty dict becomes `{}`). -/
def orEmpty : Option Json → Json
  | none => .jempty
  | some j => j

/-- The base event dict of lines 48-59, in insertion order. -/
def baseEvent (inp : AuditIn) (ts : String) : List (String × Json) :=
  [("timestamp", .jstr (ts ++ "Z")), ("action", .jstr inp.action),
   ("tenant_id", .jstr inp.tenant_id), ("user_id", optJson inp.user_id),
   ("resource", optJson inp.resource), ("resource_type", optJson inp.resource_type),
   ("ip_address", optJson inp.ip_address), ("user_agent", optJson inp.user_agent),
   ("request_data", orEmpty inp.request_data), ("response_data", orEmpty inp.response_data)]

/-- `audit_id = hashlib.sha256(json.dumps(event, sort_keys=True).encode()).hexdigest()`
computed over the base event, before `audit_id`/`result_hash`/signature fields exist. -/
def audit_id_of (inp : AuditIn) (ts : String) : String :=
  sha256hexS (dumpsCanonical (ofKvs (baseEvent inp ts)))

/-- Truthiness of the `response_data` parameter (`if response_data:`). -/
def respTruthy (inp : AuditIn) : Bool :=
  match inp.response_data with
  | some (.jcons _ _ _) => true
  | _ => false

/-- The event as it stands when `sign_payload` is called: base event plus
`audit_id`, plus `result_hash` when `response_data` is truthy. -/
def assembledEvent (inp : AuditIn) (ts : String) : List (String × Json) :=
  baseEvent inp ts ++ [("audit_id", .jstr (audit_id_of inp ts))] ++
  (if respTruthy inp then
    [("result_hash", .jstr (hash_payload (orEmpty inp.response_data)))]
   else [])

/-- The event as appended to the log: assembled event plus `signature` and
`signature_algorithm`. -/
def finalEvent (inp : AuditIn) (ts : String) (sig : String) : List (String × Json) :=
  assembledEvent inp ts ++ [("signature", .jstr sig), ("signature_algorithm", .jstr "RS256")]

/-- `AuditLogService.write_audit_event`: returns the result (audit id or the
re-raised `RuntimeError(f"Audit logging failed: {e}")`) together with the new
contents of the audit log file. -/
def write_audit_event (sign : Json → Except String String) (inp : AuditIn) (ts : String)
    (log : List String) : Except String String × List String :=
  match sign (ofKvs (assembledEvent inp ts)) with
  | .error e => (.error ("Audit logging failed: " ++ e), log)
  | .ok sig => (.ok (audit_id_of inp ts), log ++ [dumpsLine (ofKvs (finalEvent inp ts sig))])

def removeKeys (kvs : List (String × Json)) (names : List String) : List (String × Json) :=
  kvs.filter (fun kv => !(names.contains kv.1))

/-! ### Per-tenant vector store (`app/services/vectorstore.py`)

The two on-disk files of a tenant are modelled by `FileState` (a corrupted file
is one whose read raises, which `_load_index`/`_load_metadata` catch, returning
`None`/`{}`); `dbRows` models the rows written through
`VectorRepository.save_vector_metadata`.  Embedding vectors are `List ℚ` (their
numeric values never influence control flow in `add_vectors`). -/

structure FaissIndex where
  d : Nat
  vecs : List (List ℚ)
deriving DecidableEq

inductive FileState (α : Type) where
  | absent : FileState α
  | corrupted : FileState α
  | good : α → FileState α
deriving DecidableEq

structure TenantStore where
  indexFile : FileState FaissIndex
  metaFile : FileState (List (Nat × String))
  dbRows : List (String × String × Nat)
deriving DecidableEq

/-- `_load_index`: `None` when the file is missing, and also when
`faiss.read_index` raises on a corrupted file (the exception is caught and
logged). -/
def load_index (st : TenantStore) : Option FaissIndex :=
  match st.indexFile with
  | .good i => some i
  | _ => none

/-- `_load_metadata`: `{}` when the file is missing, and also when unpickling a
corrupted file raises (the exception is caught and logged). -/
def load_metadata (st : TenantStore) : List (Nat × String) :=
  match st.metaFile with
  | .good m => m
  | _ => []

/-- `create_index`: writes an empty index and empty metadata, overwriting
whatever was on disk. -/
def create_index (st : TenantStore) (dim : Nat) : TenantStore :=
  { st with indexFile := .good ⟨dim, []⟩, metaFile := .good [] }

structure VecMeta where
  chunk_id : Option String
deriving DecidableEq

/-- `FAISSVectorStore.add_vectors`.  When `_load_index` returns `None` the code
creates a fresh index sized to the first vector and reloads it (the reload of the
just-written empty index is modelled directly); `meta['chunk_id']` raising
`KeyError` on a missing key is the final error branch. -/
def add_vectors (st : TenantStore) (vectors : List (List ℚ)) (metadata : List VecMeta) :
    Except String (List String × TenantStore) :=
  if vectors = [] ∨ metadata = [] then .ok ([], st)
  else if vectors.length ≠ metadata.length then
    .error "Vectors and metadata must have same length"
  else
    let loaded :=
      match load_index st with
      | some i => (st, i)
      | none => (create_index st (vectors.headD []).length,
                 ⟨(vectors.headD []).length, ([] : List (List ℚ))⟩)
    let st1 := loaded.1
    let index := loaded.2
    if metadata.any (fun m => m.chunk_id.isNone) then .error "KeyError: chunk_id"
    else
      let startIdx := index.vecs.length
      let ids := metadata.enum.map
        (fun im => im.2.chunk_id.getD ("vec_" ++ Nat.repr (startIdx + im.1)))
      let newMeta := load_metadata st1 ++ metadata.enum.map
        (fun im => (startIdx + im.1, im.2.chunk_id.getD ("vec_" ++ Nat.repr (startIdx + im.1))))
      let rows := metadata.enum.map
        (fun im => (im.2.chunk_id.getD ("vec_" ++ Nat.repr (startIdx + im.1)),
                    im.2.chunk_id.getD "", startIdx + im.1))
      .ok (ids, { indexFile := .good ⟨index.d, index.vecs ++ vectors⟩,
                  metaFile := .good newMeta,
                  dbRows := st1.dbRows ++ rows })

/-! ### Predicates and concrete inputs used by the theorems -/

/-- `o` is the greatest index satisfying `Q` (`none` iff no index does). -/
def GoodFor (Q : Nat → Bool) : Option Nat → Prop
  | none => ∀ p, Q p = false
  | some p => Q p = true ∧ ∀ q, Q q = true → q ≤ p

/-- One delimiter's contribution to the best-break search: `e` occurs at `p` and
`p` is past the half of the searched region. -/
def qOne (lp e : List Char) (p : Nat) : Bool :=
  occursAt lp e p && decide (lp.length / 2 < p)

/-- Character-range overlap of two spans, as checked by `_remove_overlaps`. -/
def overlapping (a b : PIISpan) : Prop := a.start < b.end_ ∧ b.start < a.end_

/-- The two content invariants of an emitted chunk: its `text` is the stripped
slice `text[start:end]`, and its `chunk_id` is the SHA-256 hex digest of
`f"{document_id or 'doc'}:{start}:{end}:{chunk_text}"` (the stripped text). -/
def chunkOK (text : List Char) (c : Chunk) : Prop :=
  c.text = stripChars (sliceChars text c.start c.end_) ∧
  c.chunk_id = sha256hexS (chunkContent c.document_id c.start c.end_ c.text)

/-- 102 characters: 51 `a`s, one `.` (at index 51), 50 more `a`s. -/
def c8text : List Char := List.replicate 51 'a' ++ '.' :: List.replicate 50 'a'

/-- Audit input with a non-empty `response_data`, so `result_hash` is added. -/
def c4inp : AuditIn :=
  ⟨"query", "t1", none, none, none, none, some (.jcons "k" (.jstr "v") .jempty), none, none⟩

/-- Minimal audit input for the sign-failure witness. -/
def c2inp : AuditIn := ⟨"read", "t1", none, none, none, none, none, none, none⟩

/-- A tenant whose index and metadata files both exist but are unreadable. -/
def corruptedStore : TenantStore := ⟨.corrupted, .corrupted, []⟩

/-! ### Theorems -/

/-- Sanity check of the SHA-256 embedding against the FIPS 180-4 test vector. -/
theorem sha256_known_vector :
    sha256hexS "abc" = "ba7816bf8f01cfea414140de5dae2223b00361a396177a9cb410ff61f20015ad" := by
  decide

theorem hexFixed_length : ∀ n v, (hexFixed n v).length = n := by
  intro n
  induction n with
  | zero => intro v; rfl
  | succ k ih => intro v; simp [hexFixed, ih]

theorem getD_hex :
    ∀ (l : List Char) (n : Nat) (d : Char),
      (∀ c ∈ l, isHexDigit c = true) → isHexDigit d = true →
      isHexDigit (l.getD n d) = true := by
  intro l
  induction l with
  | nil => intro n d _ hd; simpa [List.getD] using hd
  | cons a l ih =>
    intro n d hl hd
    cases n with
    | zero => simpa [List.getD] using hl a (List.mem_cons_self a l)
    | succ k =>
      have := ih k d (fun c hc => hl c (List.mem_cons_of_mem a hc)) hd
      simpa [List.getD] using this

theorem hexDigit_hex (n : Nat) : isHexDigit (hexDigit n) = true :=
  getD_hex hexChars n '0' (by decide) (by decide)

theorem hexFixed_hex : ∀ n v, ∀ c ∈ hexFixed n v, isHexDigit c = true := by
  intro n
  induction n with
  | zero => intro v c hc; simp [hexFixed] at hc
  | succ k ih =>
    intro v c hc
    rw [hexFixed] at hc
    rcases List.mem_append.mp hc with h | h
    · exact ih _ c h
    · rw [List.mem_singleton] at h; subst h; exact hexDigit_hex _

theorem sha256hexBytes_length (m : List Nat) : (sha256hexBytes m).length = 64 := by
  unfold sha256hexBytes
  simp [List.length_append, hexFixed_length]

theorem sha256hexBytes_hex (m : List Nat) : ∀ c ∈ sha256hexBytes m, isHexDigit c = true := by
  unfold sha256hexBytes
  intro c hc
  simp only [List.append_assoc, List.mem_append] at hc
  rcases hc with h | h | h | h | h | h | h | h <;> exact hexFixed_hex _ _ c h

/-- Claim C5: redaction in mode `hash` is a pure function of
`(tenant_salt, span_text, pii_type)` — equal inputs give the identical token on
every call — and the token has the exact shape `[<type-prefix>:<8-hex-chars>]`. -/
theorem c5_hash_token :
    ∀ (salt : String) (text : List Char) (ty : String)
      (salt' : String) (text' : List Char) (ty' : String),
      salt = salt' → text = text' → ty = ty' →
      hash_text salt text ty = hash_text salt' text' ty' ∧
      ∃ d : String, hash_text salt text ty = "[" ++ tagOf ty ++ ":" ++ d ++ "]" ∧
        d.length = 8 ∧ ∀ c ∈ d.data, isHexDigit c = true := by
  intro salt text ty salt' text' ty' h1 h2 h3
  subst h1; subst h2; subst h3
  refine ⟨rfl,
    String.mk ((sha256hexBytes (utf8Encode (salt ++ ":" ++ String.mk text ++ ":" ++ ty).data)).take 8),
    rfl, ?_, ?_⟩
  · show (List.take 8 _).length = 8
    rw [List.length_take, sha256hexBytes_length]
    decide
  · intro c hc
    exact sha256hexBytes_hex _ c (List.mem_of_mem_take hc)

theorem c5_hash_token_witness :
    hash_text "tenant1" ("555-12-0000".data) "ssn" = hash_text "tenant1" ("555-12-0000".data) "ssn" ∧
    ∃ d : String, hash_text "tenant1" ("555-12-0000".data) "ssn" = "[" ++ tagOf "ssn" ++ ":" ++ d ++ "]" ∧
      d.length = 8 ∧ ∀ c ∈ d.data, isHexDigit c = true :=
  c5_hash_token "tenant1" ("555-12-0000".data) "ssn" "tenant1" ("555-12-0000".data) "ssn" rfl rfl rfl

/-- Claim C2: when signing the assembled event fails, `write_audit_event` raises
(`RuntimeError("Audit logging failed: ...")`) and the audit log file is exactly
what it was before the call — no unsigned line is appended. -/
theorem c2_sign_failure_atomic :
    ∀ (sign : Json → Except String String) (inp : AuditIn) (ts : String)
      (log : List String) (e : String),
      sign (ofKvs (assembledEvent inp ts)) = .error e →
      write_audit_event sign inp ts log = (.error ("Audit logging failed: " ++ e), log) := by
  intro sign inp ts log e h
  unfold write_audit_event
  rw [h]

theorem c2_sign_failure_atomic_witness :
    (fun _ : Json => (Except.error "boom" : Except String String))
        (ofKvs (assembledEvent c2inp "2024-01-01T00:00:00")) = .error "boom" ∧
    write_audit_event (fun _ => .error "boom") c2inp "2024-01-01T00:00:00" ["line1"] =
      (.error ("Audit logging failed: " ++ "boom"), ["line1"]) :=
  ⟨rfl, c2_sign_failure_atomic (fun _ => .error "boom") c2inp "2024-01-01T00:00:00" ["line1"] "boom" rfl⟩

/-- Claim C1 (evidence of the code bug): on a tenant whose index and metadata
files exist but are unreadable, `add_vectors` does not fail — it silently
creates a fresh empty index, appends the new vectors to it, and atomically
replaces both files, losing whatever the corrupted files held. -/
theorem c1_add_vectors_corrupted_files_recreated :
    corruptedStore.indexFile = .corrupted ∧ corruptedStore.metaFile = .corrupted ∧
    add_vectors corruptedStore [[1]] [⟨some "c1"⟩] =
      .ok (["c1"], { indexFile := .good ⟨1, [[1]]⟩, metaFile := .good [(0, "c1")],
                     dbRows := [("c1", "c1", 0)] }) :=
  ⟨rfl, rfl, rfl⟩

theorem redact_loop_known_ok :
    ∀ (salt mode : String), (mode = "mask" ∨ mode = "hash" ∨ mode = "remove") →
      ∀ (l : List PIISpan) (t : List Char) (recs : List RedactionRec),
        ∃ r, redact_loop salt mode t recs l = .ok r := by
  intro salt mode hm l
  induction l with
  | nil => intro t recs; exact ⟨(t, recs), rfl⟩
  | cons s rest ih =>
    intro t recs
    have hrep : ∃ rep, replacement_for salt mode s = .ok rep := by
      rcases hm with h | h | h <;> subst h <;> exact ⟨_, rfl⟩
    obtain ⟨rep, hrep⟩ := hrep
    rw [redact_loop, hrep]
    exact ih _ _

/-- Claim C9 (amended): with a non-empty span list, `redact_text` fails with the
`Unknown redaction mode` validation error for every mode outside
`mask`/`hash`/`remove` and never raises it for the three known modes; with an
empty span list it returns the text unchanged without validating the mode. -/
theorem c9_mode_validation :
    ∀ (salt : String) (text : List Char) (mode : String),
      redact_text salt text [] mode = .ok (text, []) ∧
      ∀ (spans : List PIISpan), spans ≠ [] →
        ((mode ≠ "mask" ∧ mode ≠ "hash" ∧ mode ≠ "remove") →
          redact_text salt text spans mode = .error ("Unknown redaction mode: " ++ mode)) ∧
        ((mode = "mask" ∨ mode = "hash" ∨ mode = "remove") →
          ∃ r, redact_text salt text spans mode = .ok r) := by
  intro salt text mode
  refine ⟨rfl, fun spans hne => ⟨?_, ?_⟩⟩
  · rintro ⟨h1, h2, h3⟩
    unfold redact_text
    rw [if_neg hne]
    obtain ⟨s, rest, hs⟩ : ∃ s rest, List.insertionSort startGe spans = s :: rest := by
      cases hsort : List.insertionSort startGe spans with
      | nil =>
        have hlen := List.length_insertionSort startGe spans
        rw [hsort] at hlen
        exact absurd (List.eq_nil_of_length_eq_zero hlen.symm) hne
      | cons s rest => exact ⟨s, rest, rfl⟩
    rw [hs, redact_loop]
    have hrep : replacement_for salt mode s = .error ("Unknown redaction mode: " ++ mode) := by
      unfold replacement_for
      rw [if_neg h1, if_neg h2, if_neg h3]
    rw [hrep]
  · intro hm
    unfold redact_text
    rw [if_neg hne]
    exact redact_loop_known_ok salt mode hm _ text []

/-- Claim C9 counterexample: with an empty span list the mode is never
validated — an unknown mode returns success, so the claim quantified over every
span list is false. -/
theorem c9_counterexample :
    redact_text "default" ("abc".data) [] "bogus" = .ok ("abc".data, []) ∧
    "bogus" ≠ "mask" ∧ "bogus" ≠ "hash" ∧ "bogus" ≠ "remove" :=
  ⟨rfl, by decide, by decide, by decide⟩

theorem adjustEnd_gt (text : List Char) (start end0 : Nat) (h : start < end0) :
    start < adjustEnd text start end0 := by
  unfold adjustEnd
  dsimp only
  split
  · exact h
  · have := Nat.le_max_left start (end0 - 100)
    omega

theorem windowEnd_gt (cs : Nat) (text : List Char) (start : Nat) (hcs : 1 ≤ cs)
    (h : start < text.length) : start < windowEnd cs text start := by
  unfold windowEnd
  have hmin : start < min (start + cs) text.length := by
    rw [Nat.lt_min]
    exact ⟨by omega, h⟩
  dsimp only
  split
  · exact adjustEnd_gt text start _ hmin
  · exact hmin

theorem nextStart_gt (ov start end1 : Nat) (h : start < end1) :
    start < nextStart ov start end1 := by
  unfold nextStart
  have := Nat.le_max_left (start + 1) (end1 - ov)
  dsimp only
  split <;> omega

theorem chunkLoop_isSome (cs ov : Nat) (text : List Char) (docId : Option String)
    (hcs : 1 ≤ cs) :
    ∀ (fuel start idx : Nat) (acc : List Chunk), text.length - start < fuel →
      (chunkLoop cs ov text docId fuel start idx acc).isSome = true := by
  intro fuel
  induction fuel with
  | zero => intro start idx acc h; omega
  | succ f ih =>
    intro start idx acc h
    rw [chunkLoop]
    by_cases hstart : start < text.length
    · rw [if_pos hstart]
      by_cases hend : text.length ≤ windowEnd cs text start
      · simp only [if_pos hend, Option.isSome_some]
      · simp only [if_neg hend]
        apply ih
        have h1 : start < windowEnd cs text start := windowEnd_gt cs text start hcs hstart
        have h2 : start < nextStart ov start (windowEnd cs text start) :=
          nextStart_gt ov start _ h1
        omega
    · rw [if_neg hstart]
      exact Option.isSome_some

/-- Claim C7: `chunk_text` terminates for every text, `chunk_size ≥ 1` and any
overlap (the fueled loop, given fuel `text.length + 1`, always returns a value),
because the advance `start = max(start+1, cut_end - overlap)` — including the
`start >= end` guard — strictly increases the window start on every iteration,
even when `overlap ≥ chunk_size`. -/
theorem c7_chunk_text_terminates :
    ∀ (cs ov : Nat) (text : List Char) (docId : Option String), 1 ≤ cs →
      (chunk_text cs ov text docId).isSome = true ∧
      ∀ start end1, start < end1 → start < nextStart ov start end1 := by
  intro cs ov text docId hcs
  refine ⟨?_, fun s e h => nextStart_gt ov s e h⟩
  unfold chunk_text
  split
  · exact Option.isSome_some
  · exact chunkLoop_isSome cs ov text docId hcs (text.length + 1) 0 0 [] (by omega)

theorem c7_chunk_text_terminates_witness :
    1 ≤ 3 ∧ (chunk_text 3 1000 ("hello world".data) none).isSome = true :=
  ⟨by decide, (c7_chunk_text_terminates 3 1000 ("hello world".data) none (by decide)).1⟩

theorem chunkLoop_ok (cs ov : Nat) (text : List Char) (docId : Option String) :
    ∀ (fuel start idx : Nat) (acc res : List Chunk), (∀ c ∈ acc, chunkOK text c) →
      chunkLoop cs ov text docId fuel start idx acc = some res →
      ∀ c ∈ res, chunkOK text c := by
  intro fuel
  induction fuel with
  | zero => intro start idx acc res _ h; exact absurd h (by simp [chunkLoop])
  | succ f ih =>
    intro start idx acc res hacc h
    rw [chunkLoop] at h
    by_cases hstart : start < text.length
    · rw [if_pos hstart] at h
      have hacc' : ∀ c ∈ (if stripChars (sliceChars text start (windowEnd cs text start)) = []
          then acc
          else acc ++ [mkChunk docId start (windowEnd cs text start)
            (stripChars (sliceChars text start (windowEnd cs text start))) idx]),
          chunkOK text c := by
        split
        · exact hacc
        · intro c hc
          rcases List.mem_append.mp hc with hc | hc
          · exact hacc c hc
          · rw [List.mem_singleton] at hc
            subst hc
            exact ⟨rfl, rfl⟩
      by_cases hend : text.length ≤ windowEnd cs text start
      · simp only [if_pos hend, Option.some.injEq] at h
        subst h
        exact hacc'
      · simp only [if_neg hend] at h
        exact ih _ _ _ _ hacc' h
    · rw [if_neg hstart] at h
      cases h
      exact hacc

/-- Claim C10: every chunk emitted by `chunk_text` has `text` equal to the
whitespace-stripped slice `input[start:end]` and `chunk_id` equal to the SHA-256
hex digest of `'<document_id or "doc">:<start>:<end>:<stripped text>'`; on the
input `"  hi  "` the emitted chunk's text length (2) is strictly less than
`end - start` (6), and its id is not the digest of the raw un-stripped segment. -/
theorem c10_chunk_fields :
    (∀ (cs ov : Nat) (text : List Char) (docId : Option String) (res : List Chunk),
        chunk_text cs ov text docId = some res → ∀ c ∈ res, chunkOK text c) ∧
    chunk_text 1000 200 ("  hi  ".data) none = some [mkChunk none 0 6 ("hi".data) 0] ∧
    (mkChunk none 0 6 ("hi".data) 0).text.length <
      (mkChunk none 0 6 ("hi".data) 0).end_ - (mkChunk none 0 6 ("hi".data) 0).start ∧
    (mkChunk none 0 6 ("hi".data) 0).chunk_id ≠ sha256hexS "doc:0:6:  hi  " := by
  refine ⟨?_, by decide, by decide, by decide⟩
  intro cs ov text docId res h c hc
  unfold chunk_text at h
  by_cases hempty : stripChars text = []
  · rw [if_pos hempty] at h
    cases h
    simp at hc
  · rw [if_neg hempty] at h
    exact chunkLoop_ok cs ov text docId _ 0 0 [] res (by intro c hc; simp at hc) h c hc

theorem c10_chunk_fields_witness :
    chunkOK ("  hi  ".data) (mkChunk none 0 6 ("hi".data) 0) :=
  c10_chunk_fields.1 1000 200 ("  hi  ".data) none [mkChunk none 0 6 ("hi".data) 0]
    (by decide) (mkChunk none 0 6 ("hi".data) 0) (List.mem_singleton.mpr rfl)

theorem pickLast_succ (pred : Nat → Bool) (n : Nat) :
    pickLast pred (n+1) = if pred n then some n else pickLast pred n := by
  unfold pickLast
  rw [List.range_succ, List.foldl_append, List.foldl_cons, List.foldl_nil]

theorem pickLast_none (pred : Nat → Bool) :
    ∀ bound, pickLast pred bound = none → ∀ p, p < bound → pred p = false := by
  intro bound
  induction bound with
  | zero => intro _ p hp; omega
  | succ n ih =>
    intro hnone p hp
    rw [pickLast_succ] at hnone
    by_cases hn : pred n = true
    · rw [if_pos hn] at hnone; cases hnone
    · rw [if_neg hn] at hnone
      rcases Nat.lt_succ_iff_lt_or_eq.mp hp with h1 | h1
      · exact ih hnone p h1
      · subst h1; exact Bool.eq_false_iff.mpr hn

theorem pickLast_some (pred : Nat → Bool) :
    ∀ bound p, pickLast pred bound = some p →
      pred p = true ∧ p < bound ∧ ∀ q, q < bound → pred q = true → q ≤ p := by
  intro bound
  induction bound with
  | zero => intro p h; simp [pickLast] at h
  | succ n ih =>
    intro p h
    rw [pickLast_succ] at h
    by_cases hn : pred n = true
    · rw [if_pos hn] at h
      cases h
      exact ⟨hn, Nat.lt_succ_self n, fun q hq _ => Nat.lt_succ_iff.mp hq⟩
    · rw [if_neg hn] at h
      obtain ⟨h1, h2, h3⟩ := ih p h
      refine ⟨h1, by omega, fun q hq hpq => ?_⟩
      rcases Nat.lt_succ_iff_lt_or_eq.mp hq with hh | hh
      · exact h3 q hh hpq
      · subst hh; exact absurd hpq hn

theorem pickLast_good (Q : Nat → Bool) (bound : Nat) (hb : ∀ p, Q p = true → p < bound) :
    GoodFor Q (pickLast Q bound) := by
  cases h : pickLast Q bound with
  | none =>
    intro p
    by_cases hp : p < bound
    · exact pickLast_none Q bound h p hp
    · by_cases hq : Q p = true
      · exact absurd (hb p hq) hp
      · exact Bool.eq_false_iff.mpr hq
  | some p =>
    obtain ⟨h1, -, h3⟩ := pickLast_some Q bound p h
    exact ⟨h1, fun q hq => h3 q (hb q hq) hq⟩

theorem occursAt_le (lp sub : List Char) (p : Nat) (h : occursAt lp sub p = true) :
    p ≤ lp.length := by
  obtain ⟨-, h2⟩ := of_decide_eq_true h
  omega

theorem GoodFor_congr (Q R : Nat → Bool) (hQR : ∀ p, Q p = R p) :
    ∀ o, GoodFor Q o → GoodFor R o := by
  intro o h
  cases o with
  | none => intro p; rw [← hQR p]; exact h p
  | some p =>
    obtain ⟨h1, h2⟩ := h
    constructor
    · rw [← hQR p]; exact h1
    · intro q hq
      exact h2 q (by rw [hQR q]; exact hq)

theorem GoodFor_unique (Q : Nat → Bool) :
    ∀ o1 o2, GoodFor Q o1 → GoodFor Q o2 → o1 = o2 := by
  intro o1 o2 h1 h2
  cases o1 with
  | none =>
    cases o2 with
    | none => rfl
    | some p =>
      have hf := h1 p
      have ht := h2.1
      rw [hf] at ht
      cases ht
  | some p =>
    cases o2 with
    | none =>
      have hf := h2 p
      have ht := h1.1
      rw [hf] at ht
      cases ht
    | some q =>
      have hpq := h2.2 p h1.1
      have hqp := h1.2 q h2.1
      have : p = q := Nat.le_antisymm hpq hqp
      rw [this]

theorem rfindSub_good (lp sub : List Char) : GoodFor (occursAt lp sub) (rfindSub lp sub) :=
  pickLast_good _ _ (fun p h => Nat.lt_succ_of_le (occursAt_le lp sub p h))

theorem qualifiesAt_le (lp : List Char) (p : Nat) (h : qualifiesAt lp p = true) :
    p ≤ lp.length := by
  unfold qualifiesAt at h
  rw [Bool.and_eq_true] at h
  obtain ⟨h1, -⟩ := h
  rw [List.any_eq_true] at h1
  obtain ⟨e, -, he⟩ := h1
  exact occursAt_le lp e p he

theorem bestBreakAmended_good (lp : List Char) : GoodFor (qualifiesAt lp) (bestBreakAmended lp) :=
  pickLast_good _ _ (fun p h => Nat.lt_succ_of_le (qualifiesAt_le lp p h))

theorem bestStep_good (lp : List Char) (Q : Nat → Bool) (best : Option Nat) (e : List Char)
    (h : GoodFor Q best) :
    GoodFor (fun p => Q p || qOne lp e p) (bestStep lp best e) := by
  have hrf := rfindSub_good lp e
  unfold bestStep
  cases hr : rfindSub lp e with
  | none =>
    rw [hr] at hrf
    apply GoodFor_congr Q _ ?_ best h
    intro p
    simp [qOne, hrf p]
  | some p =>
    rw [hr] at hrf
    obtain ⟨hocc, hmax⟩ := hrf
    dsimp only
    by_cases hc : (optLt best p && decide (lp.length / 2 < p)) = true
    · rw [if_pos hc]
      rw [Bool.and_eq_true] at hc
      obtain ⟨hlt, hhalf⟩ := hc
      refine ⟨by simp [qOne, hocc, hhalf], ?_⟩
      intro q hq
      rw [Bool.or_eq_true] at hq
      rcases hq with hq | hq
      · cases best with
        | none =>
          have hfq := h q
          rw [hfq] at hq
          cases hq
        | some b =>
          have hqb := h.2 q hq
          have hbp : b < p := of_decide_eq_true hlt
          omega
      · rw [qOne, Bool.and_eq_true] at hq
        exact hmax q hq.1
    · rw [if_neg hc]
      by_cases hhalf : lp.length / 2 < p
      · have hopt : optLt best p = false := by
          cases hob : optLt best p
          · rfl
          · exact absurd (by rw [hob, decide_eq_true hhalf]; rfl) hc
        cases best with
        | none => simp [optLt] at hopt
        | some b =>
          have hpb : ¬ (b < p) := by
            intro hbp
            have : optLt (some b) p = true := by
              show decide (b < p) = true
              exact decide_eq_true hbp
            rw [this] at hopt
            cases hopt
          obtain ⟨hb1, hb2⟩ := h
          constructor
          · rw [Bool.or_eq_true]; exact Or.inl hb1
          · intro q hq
            rw [Bool.or_eq_true] at hq
            rcases hq with hq | hq
            · exact hb2 q hq
            · rw [qOne, Bool.and_eq_true] at hq
              have h1 := hmax q hq.1
              omega
      · apply GoodFor_congr Q _ ?_ best h
        intro q
        by_cases hocq : occursAt lp e q = true
        · have hqp := hmax q hocq
          have hnq : ¬ (lp.length / 2 < q) := by omega
          simp [qOne, hnq]
        · simp [qOne, Bool.eq_false_iff.mpr hocq]

theorem foldBest_good (lp : List Char) :
    ∀ (es : List (List Char)) (Q : Nat → Bool) (best : Option Nat), GoodFor Q best →
      GoodFor (fun p => Q p || es.any (fun e => qOne lp e p)) (es.foldl (bestStep lp) best) := by
  intro es
  induction es with
  | nil =>
    intro Q best h
    apply GoodFor_congr Q _ ?_ best h
    intro p
    simp
  | cons e rest ih =>
    intro Q best h
    have h2 := ih (fun p => Q p || qOne lp e p) (bestStep lp best e) (bestStep_good lp Q best e h)
    apply GoodFor_congr _ _ ?_ _ h2
    intro p
    simp [Bool.or_assoc]

theorem bestBreakOf_eq_amended (lp : List Char) : bestBreakOf lp = bestBreakAmended lp := by
  have h0 : GoodFor (fun _ => false) none := fun _ => rfl
  have h1 := foldBest_good lp sentenceEndings (fun _ => false) none h0
  have h2 : GoodFor (qualifiesAt lp) (bestBreakOf lp) := by
    apply GoodFor_congr _ _ ?_ _ h1
    intro p
    cases hc : decide (lp.length / 2 < p) <;>
      simp [qualifiesAt, qOne, sentenceEndings, hc]
  exact GoodFor_unique _ _ _ h2 (bestBreakAmended_good lp)

/-- Claim C8 (amended): for a window that does not reach end-of-text, the cut is
one character after the right-most start position of a sentence-ending delimiter
(`.`, `!`, `?`, or a blank-line break) inside the searched region
`text[max(start, end-100):end]` whose position within that region strictly
exceeds half the region's length; if no such delimiter exists the raw boundary
stands.  (The code's per-delimiter `rfind` fold equals this declarative
right-most-qualifying-position rule.) -/
theorem c8_sentence_cut_amended :
    ∀ (text : List Char) (start end0 : Nat),
      adjustEnd text start end0 = adjustEndAmended text start end0 := by
  intro text start end0
  unfold adjustEnd adjustEndAmended
  simp only [bestBreakOf_eq_amended]

/-- Claim C8 counterexample: with the window `[0, 101)` over 102 characters and
the only delimiter at index 51 (region position 50, after the window's midpoint
50 but not past half of the 100-character region), the code keeps the raw
boundary 101 while the claim as stated cuts at 52 — so the claim is false. -/
theorem c8_counterexample :
    adjustEnd c8text 0 101 = 101 ∧ adjustEndClaimed c8text 0 101 = 52 ∧
    0 < 101 ∧ 101 < c8text.length ∧
    ¬ (∀ (text : List Char) (start end0 : Nat), start < end0 → end0 < text.length →
        adjustEnd text start end0 = adjustEndClaimed text start end0) := by
  refine ⟨by decide, by decide, by decide, by decide, fun hall => ?_⟩
  have h := hall c8text 0 101 (by decide) (by decide)
  rw [show adjustEnd c8text 0 101 = 101 from by decide,
      show adjustEndClaimed c8text 0 101 = 52 from by decide] at h
  exact absurd h (by decide)

theorem overlapping_symm {a b : PIISpan} (h : overlapping a b) : overlapping b a :=
  ⟨h.2, h.1⟩

theorem not_overlapping_of_check {s e : PIISpan} (h : overlapsCheck s e = false) :
    ¬ overlapping s e := by
  rintro ⟨h1, h2⟩
  unfold overlapsCheck at h
  simp [decide_eq_true h1, decide_eq_true h2] at h

instance : IsTotal PIISpan startLe := ⟨fun a b => Nat.le_total a.start b.start⟩

instance : IsTrans PIISpan startLe := ⟨fun _ _ _ h1 h2 => Nat.le_trans h1 h2⟩

theorem removeAux_pairwise :
    ∀ (l acc : List PIISpan),
      List.Pairwise (fun a b => ¬ overlapping a b) acc →
      List.Pairwise (fun a b => ¬ overlapping a b) (remove_overlaps_aux acc l) := by
  intro l
  induction l with
  | nil => intro acc h; exact h
  | cons s rest ih =>
    intro acc h
    rw [remove_overlaps_aux]
    by_cases hany : acc.any (fun e => overlapsCheck s e) = true
    · rw [if_pos hany]; exact ih acc h
    · rw [if_neg hany]
      apply ih
      rw [List.pairwise_append]
      refine ⟨h, List.pairwise_singleton _ _, ?_⟩
      intro a ha b hb
      rw [List.mem_singleton] at hb
      subst hb
      have hcheck : overlapsCheck b a = false := by
        rw [Bool.eq_false_iff]
        intro htrue
        exact hany (List.any_eq_true.mpr ⟨a, ha, htrue⟩)
      intro hov
      exact not_overlapping_of_check hcheck (overlapping_symm hov)

theorem removeAux_mem :
    ∀ (l acc : List PIISpan) (x : PIISpan),
      x ∈ remove_overlaps_aux acc l → x ∈ acc ∨ x ∈ l := by
  intro l
  induction l with
  | nil => intro acc x h; exact Or.inl h
  | cons s rest ih =>
    intro acc x h
    rw [remove_overlaps_aux] at h
    by_cases hany : acc.any (fun e => overlapsCheck s e) = true
    · rw [if_pos hany] at h
      rcases ih acc x h with h1 | h1
      · exact Or.inl h1
      · exact Or.inr (List.mem_cons_of_mem s h1)
    · rw [if_neg hany] at h
      rcases ih _ x h with h1 | h1
      · rcases List.mem_append.mp h1 with h2 | h2
        · exact Or.inl h2
        · rw [List.mem_singleton] at h2
          subst h2
          exact Or.inr (List.mem_cons_self _ _)
      · exact Or.inr (List.mem_cons_of_mem s h1)

/-- Claim C6: the overlap resolution of `detect_pii` — sort candidates by
`(start, -confidence)`, greedily keep a candidate iff it does not
character-range-overlap any already-kept candidate, return kept spans sorted by
`start` — yields, for every candidate list (every detector span has positive
width), spans that are pairwise non-overlapping and in strictly ascending start
order. -/
theorem c6_overlap_resolution :
    ∀ spans : List PIISpan, (∀ s ∈ spans, s.start < s.end_) →
      List.Pairwise (fun a b => a.start < b.start ∧ ¬ overlapping a b)
        (detect_pii_resolve spans) := by
  intro spans hw
  have h1 : List.Pairwise (fun a b => ¬ overlapping a b) (remove_overlaps spans) :=
    removeAux_pairwise _ [] List.Pairwise.nil
  have hmem : ∀ x ∈ remove_overlaps spans, x.start < x.end_ := by
    intro x hx
    rcases removeAux_mem _ [] x hx with h | h
    · simp at h
    · exact hw x ((List.perm_insertionSort spanKeyLe spans).mem_iff.mp h)
  have hne : List.Pairwise (fun a b => a.start ≠ b.start) (remove_overlaps spans) := by
    refine List.Pairwise.imp_of_mem ?_ h1
    intro a b ha hb hno heq
    exact hno ⟨by rw [heq]; exact hmem b hb, by rw [← heq]; exact hmem a ha⟩
  have hperm := List.perm_insertionSort startLe (remove_overlaps spans)
  have hsorted : List.Pairwise startLe (detect_pii_resolve spans) :=
    List.sorted_insertionSort startLe (remove_overlaps spans)
  have hsym1 : ∀ {a b : PIISpan}, ¬ overlapping a b → ¬ overlapping b a :=
    fun h hov => h (overlapping_symm hov)
  have hsym2 : ∀ {a b : PIISpan}, a.start ≠ b.start → b.start ≠ a.start :=
    fun h heq => h heq.symm
  have h1' : List.Pairwise (fun a b => ¬ overlapping a b) (detect_pii_resolve spans) :=
    (List.Perm.pairwise_iff @hsym1 hperm).mpr h1
  have hne' : List.Pairwise (fun a b => a.start ≠ b.start) (detect_pii_resolve spans) :=
    (List.Perm.pairwise_iff @hsym2 hperm).mpr hne
  refine ((hsorted.and h1').and hne').imp ?_
  rintro a b ⟨⟨hle, hno⟩, hnestart⟩
  exact ⟨lt_of_le_of_ne hle hnestart, hno⟩

theorem c6_overlap_resolution_witness :
    List.Pairwise (fun a b => a.start < b.start ∧ ¬ overlapping a b)
      (detect_pii_resolve
        [⟨"ssn", 0, 5, [], 9 / 10, "regex"⟩, ⟨"zip_code", 3, 8, [], 9 / 10, "regex"⟩,
         ⟨"date", 10, 12, [], 7 / 10, "spacy"⟩]) :=
  c6_overlap_resolution
    [⟨"ssn", 0, 5, [], 9 / 10, "regex"⟩, ⟨"zip_code", 3, 8, [], 9 / 10, "regex"⟩,
     ⟨"date", 10, 12, [], 7 / 10, "spacy"⟩] (by decide)

theorem removeKeys_finalEvent (inp : AuditIn) (ts sig : String) :
    removeKeys (finalEvent inp ts sig)
      ["signature", "signature_algorithm", "audit_id", "result_hash"] = baseEvent inp ts := by
  unfold finalEvent assembledEvent removeKeys baseEvent
  cases h : respTruthy inp <;> rfl

/-- Claim C4 (amended): the returned `audit_id` is the SHA-256 hex digest of the
event's sorted-key canonical serialization excluding the fields `signature`,
`signature_algorithm`, `audit_id` and `result_hash` — i.e. the digest of the base
event, computed before `audit_id` and `result_hash` are appended; the fields are
then set in the order: append id, append `result_hash` (when `response_data` is
non-empty), sign the object without the signature fields, append signature. -/
theorem c4_audit_id_amended :
    ∀ (sign : Json → Except String String) (inp : AuditIn) (ts : String) (log : List String)
      (sig : String),
      sign (ofKvs (assembledEvent inp ts)) = .ok sig →
      (write_audit_event sign inp ts log).1 = .ok (audit_id_of inp ts) ∧
      audit_id_of inp ts = sha256hexS (dumpsCanonical (ofKvs (removeKeys (finalEvent inp ts sig)
        ["signature", "signature_algorithm", "audit_id", "result_hash"]))) := by
  intro sign inp ts log sig h
  constructor
  · unfold write_audit_event
    rw [h]
  · rw [removeKeys_finalEvent]
    rfl

/-- Claim C4 counterexample: with non-empty `response_data` the written event
also carries `result_hash`, which the hash never covered — the audit id actually
returned differs from the digest of the serialization that excludes exactly
`signature`/`signature_algorithm`/`audit_id`. -/
theorem c4_counterexample :
    (write_audit_event (fun _ => .ok "SIG") c4inp "2024-01-01T00:00:00" []).1 =
      .ok (audit_id_of c4inp "2024-01-01T00:00:00") ∧
    audit_id_of c4inp "2024-01-01T00:00:00" ≠
      sha256hexS (dumpsCanonical (ofKvs (removeKeys (finalEvent c4inp "2024-01-01T00:00:00" "SIG")
        ["signature", "signature_algorithm", "audit_id"]))) :=
  ⟨rfl, by decide⟩

theorem c4_audit_id_amended_witness :
    (fun _ : Json => (Except.ok "SIG" : Except String String))
        (ofKvs (assembledEvent c4inp "2024-01-01T00:00:00")) = .ok "SIG" ∧
    ((write_audit_event (fun _ => .ok "SIG") c4inp "2024-01-01T00:00:00" []).1 =
        .ok (audit_id_of c4inp "2024-01-01T00:00:00") ∧
      audit_id_of c4inp "2024-01-01T00:00:00" =
        sha256hexS (dumpsCanonical (ofKvs (removeKeys
          (finalEvent c4inp "2024-01-01T00:00:00" "SIG")
          ["signature", "signature_algorithm", "audit_id", "result_hash"])))) :=
  ⟨rfl, c4_audit_id_amended (fun _ => .ok "SIG") c4inp "2024-01-01T00:00:00" [] "SIG" rfl⟩

theorem c9_mode_validation_witness :
    ([(⟨"ssn", 0, 3, "abc".data, 9 / 10, "regex"⟩ : PIISpan)] ≠ ([] : List PIISpan)) ∧
    redact_text "default" ("abc".data) [⟨"ssn", 0, 3, "abc".data, 9 / 10, "regex"⟩] "bogus" =
      .error ("Unknown redaction mode: " ++ "bogus") :=
  ⟨by simp,
   ((c9_mode_validation "default" ("abc".data) "bogus").2
      [⟨"ssn", 0, 3, "abc".data, 9 / 10, "regex"⟩] (by simp)).1
     ⟨by decide, by decide, by decide⟩⟩

end SDIS
